import Mathlib

/-!
Verification development for the Python-PDF-Tools repository (src/main.py).

The source is a single-file command-line tool with five operations:
image extraction from a PDF, batch image rotation, PDF assembly from
page-numbered images, structural PDF compression, and rasterizing
("advanced") PDF compression.  Each operation is embedded below as an
executable Lean definition translated from the corresponding Python
function; file names and paths are lists of characters, page geometry is
exact rational arithmetic, and the file system is an explicit map from
paths to contents.  The embedding is ASCII-faithful: Python's
case-insensitive comparisons are modelled by an explicit ASCII
lower-casing function, and the digit class of the page-pattern regex is
modelled as the ASCII digits.
-/

/-- ASCII lower-casing, the model of Python's `str.lower()` and of the
re.IGNORECASE flag on the ASCII strings this tool manipulates. -/
def myToLower (c : Char) : Char :=
  if 65 ≤ c.toNat ∧ c.toNat ≤ 90 then Char.ofNat (c.toNat + 32) else c

/-- ASCII digit test, the model of the regex class `\d` on ASCII input. -/
def isDigitC (c : Char) : Bool :=
  decide (48 ≤ c.toNat ∧ c.toNat ≤ 57)

/-- Decimal rendering of a natural number, as Python's string formatting
of an `int` produces it (no sign, no leading zeros). -/
def natDigits (n : Nat) : List Char :=
  if n = 0 then ['0'] else ((Nat.digits 10 n).map Nat.digitChar).reverse

/-- Numeric value of an ASCII digit character. -/
def charVal (c : Char) : Nat := c.toNat - 48

/-- Decimal parsing of a digit string, the model of Python's `int(...)`
on the digits captured by the page-pattern regex. -/
def parseDigits (ds : List Char) : Nat :=
  Nat.ofDigits 10 ((ds.map charVal).reverse)

/-- Index of the last occurrence of a character in a list, if any. -/
def rlastIdx (c : Char) : List Char → Option Nat
  | [] => none
  | a :: rest =>
    match rlastIdx c rest with
    | some i => some (i + 1)
    | none => if a = c then some 0 else none

/-- Model of Python's `os.path.splitext` (POSIX rules): split at the last
dot that lies inside the basename, except that the leading dots of the
basename never start an extension. -/
def pySplitext (p : List Char) : List Char × List Char :=
  let sepN : Nat :=
    match rlastIdx '/' p with
    | some i => i + 1
    | none => 0
  match rlastIdx '.' p with
  | none => (p, [])
  | some d =>
    if sepN ≤ d then
      if ((p.take d).drop sepN).any (fun c => c != '.') then
        (p.take d, p.drop d)
      else (p, [])
    else (p, [])

/-- Boolean suffix test on character lists. -/
def hasSuffix (s pat : List Char) : Bool :=
  pat == s.drop (s.length - pat.length)

/-- Model of the `.pdf`-suffix enforcement in `compress_pdf`,
`compress_pdf_advanced` and `create_pdf_from_images`: append ".pdf"
unless the lower-cased name already ends with it. -/
def ensurePdf (s : List Char) : List Char :=
  if hasSuffix (s.map myToLower) (".pdf".toList) then s else s ++ ".pdf".toList

/-- Output-path computation of `compress_pdf` (src/main.py lines
329-336): default to `{name}_compressed{ext}` from `os.path.splitext`,
then enforce the `.pdf` suffix on whichever name is used. -/
def compressOutput (input : List Char) (outOpt : Option (List Char)) : List Char :=
  match outOpt with
  | none => ensurePdf ((pySplitext input).1 ++ "_compressed".toList ++ (pySplitext input).2)
  | some o => ensurePdf o

/-- The default output path the specification text claims: always
`{name}_compressed.pdf`, regardless of the input extension. -/
def specCompressOutputDefault (input : List Char) : List Char :=
  (pySplitext input).1 ++ "_compressed.pdf".toList

/-- Render scale factor of `compress_pdf_advanced` (src/main.py lines
448-451): each axis ratio is taken only when the page exceeds the
maximum on that axis, else 1.0, and the minimum with 2.0 is taken. -/
def scaleFor (maxW maxH pageW pageH : ℚ) : ℚ :=
  let sx : ℚ := if pageW > maxW then maxW / pageW else 1
  let sy : ℚ := if pageH > maxH then maxH / pageH else 1
  min (min sx sy) 2

/-- The scale formula the specification text claims:
`min(maxWidth/pageWidth, maxHeight/pageHeight, 2.0)` unguarded. -/
def specScale (maxW maxH pageW pageH : ℚ) : ℚ :=
  min (min (maxW / pageW) (maxH / pageH)) 2

/-- Image-processing steps `compress_pdf_advanced` may apply to a
rendered page before JPEG encoding. -/
inductive ImgStep where
  | quantize256 : ImgStep
  | gaussianBlur : ℚ → ImgStep
deriving DecidableEq, Repr

/-- The conditional processing steps of src/main.py lines 469-477:
palette quantization below quality 50, then Gaussian blur of radius 0.5
below quality 40. -/
def pageSteps (q : Nat) : List ImgStep :=
  (if q < 50 then [ImgStep.quantize256] else []) ++
    (if q < 40 then [ImgStep.gaussianBlur (1 / 2)] else [])

/-- JPEG encoder parameters used at src/main.py lines 483-490. -/
structure JpegParams where
  quality : Nat
  optimize : Bool
  progressive : Bool
  subsampling : Nat
deriving DecidableEq, Repr

/-- The JPEG save call of src/main.py lines 483-490: progressive,
optimized, given quality, chroma subsampling 2 below quality 50 and 0
otherwise. -/
def encodeParams (q : Nat) : JpegParams :=
  ⟨q, true, true, if q < 50 then 2 else 0⟩

/-- A source page of `compress_pdf_advanced`: its rectangle in points
and whether rendering it to a pixmap succeeds (an abstract stand-in for
the exceptions `get_pixmap` and the image pipeline can raise). -/
structure PageIn where
  w : ℚ
  h : ℚ
  renderOk : Bool
deriving DecidableEq, Repr

/-- Result of processing one page inside the loop of
`compress_pdf_advanced`: the scale it was rendered at, the processing
steps applied, and the JPEG parameters used. -/
structure PageOut where
  scale : ℚ
  steps : List ImgStep
  params : JpegParams
deriving DecidableEq, Repr

/-- One iteration of the page loop of `compress_pdf_advanced`
(src/main.py lines 440-505); `none` models a raised exception. -/
def processPage (q : Nat) (maxW maxH : ℚ) (p : PageIn) : Option PageOut :=
  if p.renderOk then
    some ⟨scaleFor maxW maxH p.w p.h, pageSteps q, encodeParams q⟩
  else none

/-- The whole page loop: processes pages in order and propagates the
first failure, as the single try/except of `compress_pdf_advanced`
does. -/
def advancedPages (q : Nat) (maxW maxH : ℚ) : List PageIn → Option (List PageOut)
  | [] => some []
  | p :: ps =>
    match processPage q maxW maxH p with
    | none => none
    | some o => (advancedPages q maxW maxH ps).map (fun l => o :: l)

/-- `compress_pdf_advanced` end to end, abstracted to its observable
outcome: the returned value (`none` models the `return None` of the
except branch) and the list of files it saves.  The save at src/main.py
lines 508-514 happens only after every page has been processed. -/
def advancedResult (q : Nat) (maxW maxH : ℚ) (pages : List PageIn)
    (outPath : List Char) : Option (List Char) × List (List Char) :=
  match advancedPages q maxW maxH pages with
  | none => (none, [])
  | some _ => (some outPath, [outPath])

/-- Save options passed to `Document.save` by `compress_pdf`. -/
structure SaveOpts where
  deflate : Bool
  garbage : Nat
  clean : Bool
  pretty : Bool
deriving DecidableEq, Repr

/-- The preset table of `compress_pdf` (src/main.py lines 338-355);
options not named in a preset keep the library defaults (deflate off,
pretty off). -/
def compressionSettings (lvl : String) : Option SaveOpts :=
  if lvl = "low" then some ⟨false, 1, true, false⟩
  else if lvl = "medium" then some ⟨true, 2, true, false⟩
  else if lvl = "high" then some ⟨true, 4, true, true⟩
  else none

/-- `compress_pdf` end to end, abstracted to its observable outcome:
missing input or an unrecognized level returns `none` with no file
written; otherwise the save either succeeds (producing the computed
output path) or raises (modelled by `saveOk = false`). -/
def compressPdfRun (inputExists : Bool) (input : List Char)
    (outOpt : Option (List Char)) (lvl : String) (saveOk : Bool) :
    Option (List Char) × List (List Char) :=
  if inputExists = false then (none, [])
  else
    match compressionSettings lvl with
    | none => (none, [])
    | some _ =>
      let out := compressOutput input outOpt
      if saveOk then (some out, [out]) else (none, [])

/-- The extension alternation of the page-pattern regex at src/main.py
line 226: `(png|jpg|jpeg|gif|bmp|tiff|webp)`. -/
def extAlts : List (List Char) :=
  ["png".toList, "jpg".toList, "jpeg".toList, "gif".toList,
    "bmp".toList, "tiff".toList, "webp".toList]

/-- Strip a lower-case pattern from the front of a string,
case-insensitively; the model of matching a literal under
re.IGNORECASE. -/
def stripCI : List Char → List Char → Option (List Char)
  | s, [] => some s
  | [], _ :: _ => none
  | c :: s, t :: ts => if myToLower c = t then stripCI s ts else none

/-- Whether the remainder after `_page(\d+)_` satisfies
`.*\.(png|jpg|jpeg|gif|bmp|tiff|webp)$`: the string must end in a dot
followed by one of the extensions, case-insensitively. -/
def extTailOk (s : List Char) : Bool :=
  extAlts.any (fun e => hasSuffix (s.map myToLower) ('.' :: e))

/-- Attempt to match `_page(\d+)_.*\.(ext)$` at the head of the string,
returning the numeric value of the captured digits.  The digit run is
maximal (regex `\d+` backtracking cannot shorten it, since the following
literal `_` is not a digit). -/
def tryHere (s : List Char) : Option Nat :=
  match stripCI s ("_page".toList) with
  | none => none
  | some rest =>
    match rest.takeWhile isDigitC, rest.dropWhile isDigitC with
    | [], _ => none
    | _ :: _, '_' :: tl =>
      if extTailOk tl then some (parseDigits (rest.takeWhile isDigitC)) else none
    | _ :: _, _ => none

/-- Scan for the rightmost position at which `tryHere` succeeds: the
model of the greedy leading `.*` of the page-pattern regex, which hands
the capture group the last feasible `_page<digits>_` occurrence. -/
def findLast : List Char → Option Nat
  | [] => none
  | c :: rest =>
    match findLast rest with
    | some n => some n
    | none => tryHere (c :: rest)

/-- The page number `create_pdf_from_images` extracts from a filename
(src/main.py lines 226-234), or `none` when the pattern does not match.
A newline anywhere in the name defeats every `.*` of the regex, so such
names never match. -/
def pageMatch (s : List Char) : Option Nat :=
  if '\n' ∈ s then none else findLast s

/-- The (pageNumber, path) pairs `create_pdf_from_images` collects, in
directory-listing order (src/main.py lines 228-236). -/
def parsePages (files : List (List Char)) : List (Nat × List Char) :=
  files.filterMap (fun f =>
    match pageMatch f with
    | some n => some (n, f)
    | none => none)

/-- The sort key relation of `page_images.sort(key=lambda x: x[0])`. -/
def pageLE (x y : Nat × List Char) : Prop := x.1 ≤ y.1

instance : DecidableRel pageLE :=
  fun a b => inferInstanceAs (Decidable (a.1 ≤ b.1))

instance : IsTotal (Nat × List Char) pageLE :=
  ⟨fun a b => Nat.le_total a.1 b.1⟩

instance : IsTrans (Nat × List Char) pageLE :=
  ⟨fun _ _ _ h1 h2 => Nat.le_trans h1 h2⟩

/-- The stable sort of src/main.py line 244 (Python's `list.sort` is
stable); insertion sort into an already-sorted tail, placing each
element before later elements with an equal key, is the standard stable
model. -/
def sortPages (l : List (Nat × List Char)) : List (Nat × List Char) :=
  List.insertionSort pageLE l

/-- The filename `extract_images_with_quality_filter` writes for the
image at (1-based) page number `pn` and image index `ii`
(src/main.py line 114). -/
def imgFilename (pdfName : List Char) (pn ii : Nat) : List Char :=
  pdfName ++ "_page".toList ++ natDigits pn ++ "_img".toList ++
    natDigits ii ++ ".png".toList

/-- An embedded image as `extract_images_with_quality_filter` sees it:
its pixel dimensions (the colour-space handling does not affect the
claims below). -/
structure PdfImage where
  width : Nat
  height : Nat
deriving DecidableEq, Repr

/-- The inner image loop of `extract_images_with_quality_filter`
(src/main.py lines 104-123), threading the running count and the list of
files written exactly as the Python loop threads `image_count` and its
side effects; `ii` is the 0-based `enumerate` index. -/
def extractImgsAux (pdfName : List Char) (minW minH pn : Nat) :
    Nat → List PdfImage → Nat × List (List Char) → Nat × List (List Char)
  | _, [], st => st
  | ii, img :: rest, st =>
    if minW ≤ img.width ∧ minH ≤ img.height then
      extractImgsAux pdfName minW minH pn (ii + 1) rest
        (st.1 + 1, st.2 ++ [imgFilename pdfName (pn + 1) (ii + 1)])
    else
      extractImgsAux pdfName minW minH pn (ii + 1) rest st

/-- The page loop of `extract_images_with_quality_filter`
(src/main.py lines 100-123); `pn` is the 0-based page index. -/
def extractPagesAux (pdfName : List Char) (minW minH : Nat) :
    Nat → List (List PdfImage) → Nat × List (List Char) → Nat × List (List Char)
  | _, [], st => st
  | pn, pg :: rest, st =>
    extractPagesAux pdfName minW minH (pn + 1) rest
      (extractImgsAux pdfName minW minH pn 0 pg st)

/-- `extract_images_with_quality_filter` on a PDF given as its pages'
image lists: returns the final count and the files written, in order. -/
def extractRun (pdfName : List Char) (minW minH : Nat)
    (pdf : List (List PdfImage)) : Nat × List (List Char) :=
  extractPagesAux pdfName minW minH 0 pdf (0, [])

/-- Declarative description of the files extraction writes: one file per
image with both dimensions at or above the thresholds, named by 1-based
page number and image index; `ii` is the starting 0-based image index. -/
def imgWritesSpec (pdfName : List Char) (minW minH pn : Nat) :
    Nat → List PdfImage → List (List Char)
  | _, [] => []
  | ii, img :: rest =>
    (if minW ≤ img.width ∧ minH ≤ img.height then
      [imgFilename pdfName (pn + 1) (ii + 1)] else []) ++
      imgWritesSpec pdfName minW minH pn (ii + 1) rest

/-- Declarative description over all pages, starting at 0-based page
index `pn`. -/
def pdfWritesSpec (pdfName : List Char) (minW minH : Nat) :
    Nat → List (List PdfImage) → List (List Char)
  | _, [] => []
  | pn, pg :: rest =>
    imgWritesSpec pdfName minW minH pn 0 pg ++
      pdfWritesSpec pdfName minW minH (pn + 1) rest

/-- `create_pdf_from_images` end to end, abstracted to its observable
outcome (src/main.py lines 196-311): the returned path (`none` models
`return None`) and the list of files saved.  `decode` models opening and
inserting one image, `none` being the per-image exception that the loop
catches and skips; the zero-page check at lines 295-298 precedes the
save. -/
def createPdfRun (dirName : List Char) (files : List (List Char))
    (decode : List Char → Option Nat) (outOpt : Option (List Char)) :
    Option (List Char) × List (List Char) :=
  if files.isEmpty then (none, [])
  else
    let parsed := parsePages files
    if parsed.isEmpty then (none, [])
    else
      let outName := ensurePdf
        (match outOpt with
          | none => dirName ++ "_combined.pdf".toList
          | some o => o)
      let pages := (sortPages parsed).filterMap (fun x => decode x.2)
      if pages.isEmpty then (none, []) else (some outName, [outName])

/-- Image file contents, abstractly: a decodable bitmap (tagged by an
identifier), a rotation of another image (PIL's `rotate` with
`expand=True`), or an undecodable file. -/
inductive Img where
  | bitmap : Nat → Img
  | rotBy : Int → Img → Img
  | corrupt : Img
deriving DecidableEq, Repr

/-- PIL `Image.open` plus `rotate(angle, expand=True)`: fails on an
undecodable file, otherwise produces the rotated image. -/
def tryRotate (angle : Int) : Img → Option Img
  | Img.corrupt => none
  | i => some (Img.rotBy angle i)

/-- A directory's contents: a map from file paths to file contents. -/
def FS : Type := List Char → Option Img

/-- Writing one file. -/
def fsSet (fs : FS) (p : List Char) (v : Img) : FS :=
  fun q => if q = p then some v else fs q

/-- Direction normalization of `rotate_images_in_directory`
(src/main.py lines 145-153): the rotation angle and the normalized
direction text used in output filenames. -/
def normDirection (d : List Char) : Option (Int × List Char) :=
  let dl := d.map myToLower
  if dl = "clockwise".toList ∨ dl = "cw".toList then
    some (-90, "clockwise".toList)
  else if dl = "anticlockwise".toList ∨ dl = "counterclockwise".toList ∨
      dl = "acw".toList ∨ dl = "ccw".toList then
    some (90, "anticlockwise".toList)
  else none

/-- The sibling filename used when `overwrite` is false
(src/main.py lines 184-185): `{name}_rotated_{direction}{ext}`. -/
def rotName (p dirText : List Char) : List Char :=
  (pySplitext p).1 ++ "_rotated_".toList ++ dirText ++ (pySplitext p).2

/-- The batch loop of `rotate_images_in_directory` (src/main.py lines
171-192): each file is opened from the current directory state, a
failure skips the file, a success writes the rotated image either over
the original or at the sibling name and increments the count.  The
third component logs every write performed. -/
def rotateLoop (angle : Int) (dirText : List Char) (overwrite : Bool) :
    List (List Char) → FS → Nat → List (List Char × Img) →
    FS × Nat × List (List Char × Img)
  | [], fs, cnt, log => (fs, cnt, log)
  | p :: rest, fs, cnt, log =>
    match fs p with
    | none => rotateLoop angle dirText overwrite rest fs cnt log
    | some img =>
      match tryRotate angle img with
      | none => rotateLoop angle dirText overwrite rest fs cnt log
      | some r =>
        let target := if overwrite then p else rotName p dirText
        rotateLoop angle dirText overwrite rest (fsSet fs target r)
          (cnt + 1) (log ++ [(target, r)])

/-- `rotate_images_in_directory` end to end: normalize the direction
(an invalid one rotates nothing), then run the batch over the files
found, in listing order. -/
def rotateRun (d : List Char) (overwrite : Bool) (order : List (List Char))
    (fs : FS) : FS × Nat × List (List Char × Img) :=
  match normDirection d with
  | none => (fs, 0, [])
  | some (a, t) => rotateLoop a t overwrite order fs 0 []

/-- What a successful `processPage` returns, spelt out. -/
theorem processPage_eq (q : Nat) (maxW maxH : ℚ) (p : PageIn) (o : PageOut)
    (hp : processPage q maxW maxH p = some o) :
    o = ⟨scaleFor maxW maxH p.w p.h, pageSteps q, encodeParams q⟩ := by
  unfold processPage at hp
  by_cases hr : p.renderOk = true
  · simp [hr] at hp
    exact hp.symm
  · simp [hr] at hp

/-- C1 counterexample: on a 100x100-point page with maxima 1200x1600,
`compress_pdf_advanced` renders at scale 1.0, while the claimed formula
`min(maxWidth/pageWidth, maxHeight/pageHeight, 2.0)` gives 2.0. -/
theorem scale_claim_counterexample :
    (processPage 30 1200 1600 ⟨100, 100, true⟩).map PageOut.scale ≠
      some (specScale 1200 1600 100 100) := by
  have h1 : scaleFor 1200 1600 100 100 = 1 := by
    norm_num [scaleFor, min_def]
  have h2 : specScale 1200 1600 100 100 = 2 := by
    norm_num [specScale, min_def]
  simp [processPage, h1, h2]

/-- Claim C1 (amended): the render scale equals
`min(sx, sy, 2.0)` where `sx` is `maxWidth/pageWidth` only when the page
is wider than the maximum and 1.0 otherwise (likewise `sy`); with
positive dimensions the scale never exceeds 1.0 (so the operation never
upscales and the 2.0 cap is never the binding term), and the scale is
exactly 1.0 whenever the page already fits within the maxima. -/
theorem scale_amended (q : Nat) (maxW maxH : ℚ) (p : PageIn) (o : PageOut)
    (hp : processPage q maxW maxH p = some o)
    (hw : 0 < p.w) (hh : 0 < p.h) (hmw : 0 < maxW) (hmh : 0 < maxH) :
    o.scale = scaleFor maxW maxH p.w p.h ∧
    o.scale ≤ 1 ∧
    (p.w ≤ maxW → p.h ≤ maxH → o.scale = 1) := by
  have ho := processPage_eq q maxW maxH p o hp
  have hsx : (if p.w > maxW then maxW / p.w else 1) ≤ 1 := by
    split
    · exact le_of_lt ((div_lt_one hw).mpr (by assumption))
    · exact le_refl 1
  refine ⟨by rw [ho], ?_, ?_⟩
  · rw [ho]
    show min (min _ _) 2 ≤ 1
    exact le_trans (le_trans (min_le_left _ _) (min_le_left _ _)) hsx
  · intro h1 h2
    rw [ho]
    show min (min _ _) 2 = 1
    rw [if_neg (not_lt.mpr h1), if_neg (not_lt.mpr h2)]
    norm_num

/-- Witness for the amended C1 at a concrete page that already fits. -/
theorem processPage_witness_input :
    processPage 30 1200 1600 ⟨600, 800, true⟩ =
      some ⟨1, pageSteps 30, encodeParams 30⟩ := by
  norm_num [processPage, scaleFor, min_def]

theorem scale_amended_witness :
    processPage 30 1200 1600 ⟨600, 800, true⟩ =
      some ⟨1, pageSteps 30, encodeParams 30⟩ ∧
    (⟨1, pageSteps 30, encodeParams 30⟩ : PageOut).scale = 1 :=
  ⟨processPage_witness_input,
    (scale_amended 30 1200 1600 ⟨600, 800, true⟩ ⟨1, pageSteps 30, encodeParams 30⟩
      processPage_witness_input (by norm_num) (by norm_num) (by norm_num)
      (by norm_num)).2.2 (by norm_num) (by norm_num)⟩

/-- Claim C2: palette quantization is applied iff quality < 50, the
0.5-radius Gaussian blur iff quality < 40, the JPEG is progressive at
the given quality with chroma subsampling 2 below 50 and 0 otherwise,
and quality 99 triggers neither quantization nor blur. -/
theorem quality_thresholds (q : Nat) (maxW maxH : ℚ) (p : PageIn) (o : PageOut)
    (hp : processPage q maxW maxH p = some o) :
    ((ImgStep.quantize256 ∈ o.steps) ↔ q < 50) ∧
    ((ImgStep.gaussianBlur (1 / 2) ∈ o.steps) ↔ q < 40) ∧
    o.params.progressive = true ∧
    o.params.quality = q ∧
    o.params.subsampling = (if q < 50 then 2 else 0) ∧
    (q = 99 → o.steps = []) := by
  have ho := processPage_eq q maxW maxH p o hp
  subst ho
  refine ⟨?_, ?_, rfl, rfl, rfl, ?_⟩
  · by_cases h50 : q < 50 <;> by_cases h40 : q < 40 <;>
      simp [pageSteps, h50, h40]
  · by_cases h50 : q < 50 <;> by_cases h40 : q < 40 <;>
      simp [pageSteps, h50, h40]
  · intro hq
    subst hq
    norm_num [pageSteps]

/-- Witness for C2 at quality 30 (both quantization and blur fire). -/
theorem quality_thresholds_witness :
    processPage 35 1200 1600 ⟨600, 800, true⟩ =
      some ⟨1, pageSteps 35, encodeParams 35⟩ ∧
    ImgStep.quantize256 ∈ (⟨1, pageSteps 35, encodeParams 35⟩ : PageOut).steps :=
  ⟨by norm_num [processPage, scaleFor, min_def],
    (quality_thresholds 35 1200 1600 ⟨600, 800, true⟩
      ⟨1, pageSteps 35, encodeParams 35⟩
      (by norm_num [processPage, scaleFor, min_def])).1.mpr (by norm_num)⟩

/-- Claim C6: the level-to-save-flags table of `compress_pdf`, and
rejection of any other level before anything is saved. -/
theorem compression_levels (lvl : String)
    (h1 : lvl ≠ "low") (h2 : lvl ≠ "medium") (h3 : lvl ≠ "high") :
    compressionSettings "low" = some ⟨false, 1, true, false⟩ ∧
    compressionSettings "medium" = some ⟨true, 2, true, false⟩ ∧
    compressionSettings "high" = some ⟨true, 4, true, true⟩ ∧
    compressionSettings lvl = none ∧
    ∀ ex inp o s, compressPdfRun ex inp o lvl s = (none, []) := by
  refine ⟨by decide, by decide, by decide, ?_, ?_⟩
  · simp [compressionSettings, h1, h2, h3]
  · intro ex inp o s
    cases ex <;> simp [compressPdfRun, compressionSettings, h1, h2, h3]

/-- Witness for C6 at the unrecognized level "ultra". -/
theorem compression_levels_witness :
    compressPdfRun true ("x.pdf".toList) none "ultra" true = (none, []) :=
  (compression_levels "ultra" (by decide) (by decide) (by decide)).2.2.2.2
    true ("x.pdf".toList) none true

/-- Claim C7: a failure while processing any single page makes
`compress_pdf_advanced` return `none` and save no file at all. -/
theorem advanced_abort (q : Nat) (maxW maxH : ℚ) (pages : List PageIn)
    (path : List Char) (p : PageIn) (hp : p ∈ pages)
    (hf : p.renderOk = false) :
    advancedResult q maxW maxH pages path = (none, []) := by
  suffices h : advancedPages q maxW maxH pages = none by
    simp [advancedResult, h]
  induction pages with
  | nil => cases hp
  | cons a rest ih =>
    rcases List.mem_cons.mp hp with rfl | hmem
    · simp [advancedPages, processPage, hf]
    · have hrest := ih hmem
      unfold advancedPages
      cases processPage q maxW maxH a <;> simp [hrest]

/-- Witness for C7: one good page followed by one failing page. -/
theorem advanced_abort_witness :
    advancedResult 30 1200 1600 [⟨10, 10, true⟩, ⟨5, 5, false⟩]
      ("out.pdf".toList) = (none, []) :=
  advanced_abort 30 1200 1600 [⟨10, 10, true⟩, ⟨5, 5, false⟩]
    ("out.pdf".toList) ⟨5, 5, false⟩
    (List.mem_cons_of_mem _ (List.mem_cons_self _ _)) rfl

/-- Claim C8: when every image fails to decode, `create_pdf_from_images`
returns `none` and writes no output file. -/
theorem create_pdf_zero_pages (dirName : List Char) (files : List (List Char))
    (decode : List Char → Option Nat) (outOpt : Option (List Char))
    (hd : ∀ f, decode f = none) :
    createPdfRun dirName files decode outOpt = (none, []) := by
  unfold createPdfRun
  by_cases h1 : files.isEmpty
  · simp [h1]
  · simp only [h1, Bool.false_eq_true, if_false]
    by_cases h2 : (parsePages files).isEmpty
    · simp [h2]
    · have hnil : ((sortPages (parsePages files)).filterMap
          (fun x => decode x.2)) = [] :=
        List.filterMap_eq_nil_iff.mpr (fun a _ => hd a.2)
      simp [h2, hnil]

/-- Witness for C8: a directory with one pattern-matching image whose
decode fails; the zero-page branch (not the no-files branch) is hit. -/
theorem create_pdf_zero_pages_witness :
    parsePages ["a_page1_x.png".toList] ≠ [] ∧
    createPdfRun ("d".toList) ["a_page1_x.png".toList]
      (fun _ => none) none = (none, []) :=
  ⟨by decide,
    create_pdf_zero_pages ("d".toList) ["a_page1_x.png".toList]
      (fun _ => none) none (fun _ => rfl)⟩

/-- Inserting an element whose key is `k` ahead of the strictly-smaller
keys leaves it first among the key-`k` elements. -/
theorem filter_orderedInsert_pos (k : Nat) (a : Nat × List Char)
    (l : List (Nat × List Char)) (ha : a.1 = k) :
    (List.orderedInsert pageLE a l).filter (fun x => x.1 == k) =
      a :: l.filter (fun x => x.1 == k) := by
  induction l with
  | nil => simp [List.orderedInsert, List.filter_cons, ha]
  | cons b t ih =>
    by_cases h : pageLE a b
    · rw [List.orderedInsert_of_le _ _ h]
      simp [List.filter_cons, ha]
    · have hb : (b.1 == k) = false := by
        have hlt : b.1 < a.1 := Nat.lt_of_not_le h
        subst ha
        exact beq_eq_false_iff_ne.mpr (Nat.ne_of_lt hlt)
      simp only [List.orderedInsert, if_neg h, List.filter_cons, hb,
        Bool.false_eq_true, if_false, ih]

/-- Inserting an element whose key is not `k` leaves the key-`k`
elements untouched. -/
theorem filter_orderedInsert_neg (k : Nat) (a : Nat × List Char)
    (l : List (Nat × List Char)) (ha : a.1 ≠ k) :
    (List.orderedInsert pageLE a l).filter (fun x => x.1 == k) =
      l.filter (fun x => x.1 == k) := by
  have hb : (a.1 == k) = false := beq_eq_false_iff_ne.mpr ha
  induction l with
  | nil => simp [List.orderedInsert, List.filter_cons, hb]
  | cons b t ih =>
    by_cases h : pageLE a b
    · rw [List.orderedInsert_of_le _ _ h]
      simp [List.filter_cons, hb]
    · simp only [List.orderedInsert, if_neg h, List.filter_cons, ih]

/-- Stability of the sort of `create_pdf_from_images`: for every key,
the subsequence of entries with that key is unchanged. -/
theorem filter_sortPages (k : Nat) (l : List (Nat × List Char)) :
    (sortPages l).filter (fun x => x.1 == k) = l.filter (fun x => x.1 == k) := by
  induction l with
  | nil => rfl
  | cons a t ih =>
    simp only [sortPages] at ih
    show (List.orderedInsert pageLE a (List.insertionSort pageLE t)).filter _ = _
    by_cases ha : a.1 = k
    · rw [filter_orderedInsert_pos k a _ ha, ih]
      simp [List.filter_cons, ha]
    · rw [filter_orderedInsert_neg k a _ ha, ih]
      simp [List.filter_cons, beq_eq_false_iff_ne.mpr ha]

/-- Claim C3: the (pageNumber, path) pairs obtained from the page
pattern are sorted ascending by page number by a stable sort — the
output is a permutation of the parsed pairs, sorted under `pageLE`, and
entries sharing a page number keep their original relative order (so
duplicates all survive as separate entries); numerically, page1, page2,
page10 come out in that order. -/
theorem create_pdf_page_order :
    (∀ files : List (List Char),
      List.Sorted pageLE (sortPages (parsePages files)) ∧
      (sortPages (parsePages files)).Perm (parsePages files) ∧
      ∀ k, (sortPages (parsePages files)).filter (fun x => x.1 == k) =
        (parsePages files).filter (fun x => x.1 == k)) ∧
    sortPages (parsePages
      ["a_page2_x.png".toList, "a_page1_x.png".toList, "a_page10_x.png".toList]) =
      [(1, "a_page1_x.png".toList), (2, "a_page2_x.png".toList),
        (10, "a_page10_x.png".toList)] := by
  constructor
  · intro files
    exact ⟨List.sorted_insertionSort pageLE _,
      List.perm_insertionSort pageLE _,
      fun k => filter_sortPages k _⟩
  · decide

/-- C4 counterexample: for the input `doc.txt` the default output is
`doc_compressed.txt.pdf`, not the claimed `doc_compressed.pdf`. -/
theorem compress_output_counterexample :
    compressOutput ("doc.txt".toList) none ≠
      specCompressOutputDefault ("doc.txt".toList) ∧
    compressOutput ("doc.txt".toList) none = "doc_compressed.txt.pdf".toList ∧
    specCompressOutputDefault ("doc.txt".toList) = "doc_compressed.pdf".toList := by
  decide

/-- Appending the pattern always yields that suffix. -/
theorem hasSuffix_append (x pat : List Char) : hasSuffix (x ++ pat) pat = true := by
  unfold hasSuffix
  rw [List.length_append, Nat.add_sub_cancel, List.drop_left]
  simp

/-- Whatever `ensurePdf` returns ends with ".pdf" case-insensitively. -/
theorem ensurePdf_suffix (s : List Char) :
    hasSuffix ((ensurePdf s).map myToLower) (".pdf".toList) = true := by
  unfold ensurePdf
  by_cases h : hasSuffix (s.map myToLower) (".pdf".toList) = true
  · rw [if_pos h]
    exact h
  · rw [if_neg h, List.map_append]
    have hmap : (".pdf".toList).map myToLower = ".pdf".toList := by decide
    rw [hmap]
    exact hasSuffix_append _ _

/-- A suffix test ignores any prefix prepended before a part at least as
long as the pattern. -/
theorem hasSuffix_append_left (x y pat : List Char)
    (h : pat.length ≤ y.length) :
    hasSuffix (x ++ y) pat = hasSuffix y pat := by
  unfold hasSuffix
  have harith : x.length + y.length - pat.length =
      x.length + (y.length - pat.length) := by omega
  rw [List.length_append, harith, List.drop_append]

/-- Claim C4 (amended): the default output is
`{name}_compressed{ext}` — keeping the input's extension — with ".pdf"
appended when that does not already end in ".pdf" case-insensitively,
so every output ends with ".pdf" case-insensitively; the claimed
`{name}_compressed.pdf` does result when the input's extension is
`.pdf` and also when the input has no extension, but not for other
extensions. -/
theorem compress_output_amended (input n : List Char)
    (h : pySplitext input = (n, ".pdf".toList) ∨ pySplitext input = (n, [])) :
    compressOutput input none = n ++ "_compressed.pdf".toList ∧
    ∀ inp o, hasSuffix ((compressOutput inp o).map myToLower) (".pdf".toList) = true := by
  constructor
  · rcases h with h | h
    · show ensurePdf _ = _
      rw [h]
      have hsfx : hasSuffix
          (((n ++ "_compressed".toList ++ ".pdf".toList)).map myToLower)
          (".pdf".toList) = true := by
        rw [List.map_append]
        have hmap : (".pdf".toList).map myToLower = ".pdf".toList := by decide
        rw [hmap]
        exact hasSuffix_append _ _
      rw [ensurePdf, if_pos hsfx, List.append_assoc]
      have : "_compressed".toList ++ ".pdf".toList = "_compressed.pdf".toList := by
        decide
      rw [this]
    · show ensurePdf _ = _
      rw [h]
      show ensurePdf (n ++ "_compressed".toList ++ []) = _
      rw [List.append_nil]
      have hno : hasSuffix ((n ++ "_compressed".toList).map myToLower)
          (".pdf".toList) = false := by
        rw [List.map_append]
        exact (hasSuffix_append_left (List.map myToLower n)
          (("_compressed".toList).map myToLower) (".pdf".toList)
          (by decide)).trans (by decide)
      rw [ensurePdf, if_neg (by rw [hno]; decide), List.append_assoc]
      have : "_compressed".toList ++ ".pdf".toList = "_compressed.pdf".toList := by
        decide
      rw [this]
  · intro inp o
    cases o with
    | none => exact ensurePdf_suffix _
    | some x => exact ensurePdf_suffix _

/-- Witness for the amended C4 at the inputs `doc.pdf` (extension
`.pdf`) and `doc` (no extension); both hit the claimed default name. -/
theorem compress_output_amended_witness :
    pySplitext ("doc.pdf".toList) = ("doc".toList, ".pdf".toList) ∧
    pySplitext ("doc".toList) = ("doc".toList, []) ∧
    compressOutput ("doc.pdf".toList) none =
      "doc".toList ++ "_compressed.pdf".toList ∧
    compressOutput ("doc".toList) none =
      "doc".toList ++ "_compressed.pdf".toList :=
  ⟨by decide, by decide,
    (compress_output_amended ("doc.pdf".toList) ("doc".toList)
      (Or.inl (by decide))).1,
    (compress_output_amended ("doc".toList) ("doc".toList)
      (Or.inr (by decide))).1⟩

/-- The image loop equals its declarative description, with the running
count and write list threaded from any starting state. -/
theorem extractImgsAux_spec (pdfName : List Char) (minW minH pn : Nat) :
    ∀ (l : List PdfImage) (ii c : Nat) (fs : List (List Char)),
      extractImgsAux pdfName minW minH pn ii l (c, fs) =
        (c + (imgWritesSpec pdfName minW minH pn ii l).length,
          fs ++ imgWritesSpec pdfName minW minH pn ii l) := by
  intro l
  induction l with
  | nil => intro ii c fs; simp [extractImgsAux, imgWritesSpec]
  | cons img rest ih =>
    intro ii c fs
    by_cases h : minW ≤ img.width ∧ minH ≤ img.height
    · simp only [extractImgsAux, imgWritesSpec, if_pos h, ih]
      refine Prod.ext ?_ ?_
      · simp only [List.singleton_append, List.length_cons]
        omega
      · simp
    · simp only [extractImgsAux, imgWritesSpec, if_neg h, ih,
        List.nil_append]

/-- The page loop equals its declarative description. -/
theorem extractPagesAux_spec (pdfName : List Char) (minW minH : Nat) :
    ∀ (pdf : List (List PdfImage)) (pn c : Nat) (fs : List (List Char)),
      extractPagesAux pdfName minW minH pn pdf (c, fs) =
        (c + (pdfWritesSpec pdfName minW minH pn pdf).length,
          fs ++ pdfWritesSpec pdfName minW minH pn pdf) := by
  intro pdf
  induction pdf with
  | nil => intro pn c fs; simp [extractPagesAux, pdfWritesSpec]
  | cons pg rest ih =>
    intro pn c fs
    show extractPagesAux pdfName minW minH (pn + 1) rest
      (extractImgsAux pdfName minW minH pn 0 pg (c, fs)) = _
    rw [extractImgsAux_spec, ih]
    refine Prod.ext ?_ ?_
    · simp only [pdfWritesSpec, List.length_append]
      omega
    · simp [pdfWritesSpec]

/-- Claim C5: extraction writes exactly the images whose width and
height both meet the thresholds, one PNG per qualifying (page, index)
pair named `{pdfBaseName}_page{p}_img{i}.png` with 1-based numbers, in
order; the returned count equals the number of files written, and
below-threshold images are neither written nor counted. -/
theorem extraction_filter (pdfName : List Char) (minW minH : Nat)
    (pdf : List (List PdfImage)) :
    extractRun pdfName minW minH pdf =
      ((pdfWritesSpec pdfName minW minH 0 pdf).length,
        pdfWritesSpec pdfName minW minH 0 pdf) := by
  unfold extractRun
  rw [extractPagesAux_spec]
  simp

/-- With `overwrite` false, a path that is no source's rotated name is
never written during the batch. -/
theorem rotateLoop_untouched (a : Int) (t : List Char) :
    ∀ (order : List (List Char)) (fs : FS) (cnt : Nat)
      (log : List (List Char × Img)) (q : List Char),
      (∀ p ∈ order, q ≠ rotName p t) →
      (rotateLoop a t false order fs cnt log).1 q = fs q := by
  intro order
  induction order with
  | nil => intro fs cnt log q hq; rfl
  | cons p rest ih =>
    intro fs cnt log q hq
    have hqp : q ≠ rotName p t := hq p (List.mem_cons_self _ _)
    have hrest : ∀ r ∈ rest, q ≠ rotName r t :=
      fun r hr => hq r (List.mem_cons_of_mem _ hr)
    cases hfp : fs p with
    | none =>
      simp only [rotateLoop, hfp]
      exact ih fs cnt log q hrest
    | some img =>
      cases htr : tryRotate a img with
      | none =>
        simp only [rotateLoop, hfp, htr]
        exact ih fs cnt log q hrest
      | some r =>
        simp only [rotateLoop, hfp, htr, Bool.false_eq_true, if_false]
        rw [ih _ _ _ q hrest]
        simp [fsSet, hqp]

/-- With `overwrite` false, the batch appends one write per successful
rotation, each at a source's rotated name. -/
theorem rotateLoop_writes (a : Int) (t : List Char) :
    ∀ (order : List (List Char)) (fs : FS) (cnt : Nat)
      (log : List (List Char × Img)),
      ∃ adds : List (List Char × Img),
        (rotateLoop a t false order fs cnt log).2.1 = cnt + adds.length ∧
        (rotateLoop a t false order fs cnt log).2.2 = log ++ adds ∧
        ∀ w ∈ adds, ∃ p, p ∈ order ∧ w.1 = rotName p t := by
  intro order
  induction order with
  | nil =>
    intro fs cnt log
    exact ⟨[], rfl, by simp [rotateLoop], by simp⟩
  | cons p rest ih =>
    intro fs cnt log
    cases hfp : fs p with
    | none =>
      obtain ⟨adds, h1, h2, h3⟩ := ih fs cnt log
      refine ⟨adds, ?_, ?_, ?_⟩
      · simp only [rotateLoop, hfp]; exact h1
      · simp only [rotateLoop, hfp]; exact h2
      · exact fun w hw => (h3 w hw).imp
          (fun x hx => ⟨List.mem_cons_of_mem _ hx.1, hx.2⟩)
    | some img =>
      cases htr : tryRotate a img with
      | none =>
        obtain ⟨adds, h1, h2, h3⟩ := ih fs cnt log
        refine ⟨adds, ?_, ?_, ?_⟩
        · simp only [rotateLoop, hfp, htr]; exact h1
        · simp only [rotateLoop, hfp, htr]; exact h2
        · exact fun w hw => (h3 w hw).imp
            (fun x hx => ⟨List.mem_cons_of_mem _ hx.1, hx.2⟩)
      | some r =>
        obtain ⟨adds, h1, h2, h3⟩ :=
          ih (fsSet fs (rotName p t) r) (cnt + 1) (log ++ [(rotName p t, r)])
        refine ⟨(rotName p t, r) :: adds, ?_, ?_, ?_⟩
        · simp only [rotateLoop, hfp, htr, Bool.false_eq_true, if_false]
          rw [h1]
          simp only [List.length_cons]
          omega
        · simp only [rotateLoop, hfp, htr, Bool.false_eq_true, if_false]
          rw [h2]
          simp
        · intro w hw
          rcases List.mem_cons.mp hw with rfl | hmem
          · exact ⟨p, List.mem_cons_self _ _, rfl⟩
          · exact (h3 w hmem).imp (fun x hx => ⟨List.mem_cons_of_mem _ hx.1, hx.2⟩)

/-- The directory state used by the C9 counterexample: `a.png` plus a
file that already bears the rotated name `a.png` would get. -/
def collisionFS : FS := fun p =>
  if p = "a.png".toList then some (Img.bitmap 1)
  else if p = "a_rotated_clockwise.png".toList then some (Img.bitmap 2)
  else none

/-- C9 counterexample: rotating the directory containing `a.png` and
`a_rotated_clockwise.png` with `overwrite=false` modifies the processed
original `a_rotated_clockwise.png` (it is overwritten by the rotation of
`a.png`). -/
theorem rotate_overwrites_original :
    collisionFS ("a_rotated_clockwise.png".toList) = some (Img.bitmap 2) ∧
    (rotateRun ("clockwise".toList) false
        ["a.png".toList, "a_rotated_clockwise.png".toList]
        collisionFS).1 ("a_rotated_clockwise.png".toList) ≠
      some (Img.bitmap 2) := by
  decide

/-- Claim C9 (amended): with `overwrite=false` every write of the batch
goes to a path of the form `{name}_rotated_{direction}{ext}` of some
processed source (one write per successfully rotated image, so the
returned count equals the number of writes), and any path that is not
the rotated name of a processed source — in particular any original,
absent a name collision with a rotated name — is never deleted or
modified. -/
theorem rotate_no_overwrite_amended (d : List Char) (a : Int) (t : List Char)
    (hd : normDirection d = some (a, t)) (order : List (List Char)) (fs : FS)
    (q : List Char) (hq : ∀ p ∈ order, q ≠ rotName p t) :
    (rotateRun d false order fs).1 q = fs q ∧
    (rotateRun d false order fs).2.2.length = (rotateRun d false order fs).2.1 ∧
    ∀ w ∈ (rotateRun d false order fs).2.2,
      ∃ p, p ∈ order ∧ w.1 = rotName p t := by
  unfold rotateRun
  rw [hd]
  obtain ⟨adds, h1, h2, h3⟩ := rotateLoop_writes a t order fs 0 []
  refine ⟨rotateLoop_untouched a t order fs 0 [] q hq, ?_, ?_⟩
  · rw [h1, h2, List.nil_append, Nat.zero_add]
  · rw [h2, List.nil_append]
    exact h3

/-- Witness for the amended C9: a lone `b.png` whose own path is not a
rotated name stays untouched. -/
theorem rotate_no_overwrite_amended_witness :
    normDirection ("cw".toList) = some (-90, "clockwise".toList) ∧
    (rotateRun ("cw".toList) false ["b.png".toList]
        (fun _ => some (Img.bitmap 7))).1 ("b.png".toList) =
      some (Img.bitmap 7) :=
  ⟨by decide,
    ((rotate_no_overwrite_amended ("cw".toList) (-90) ("clockwise".toList)
      (by decide) ["b.png".toList] (fun _ => some (Img.bitmap 7))
      ("b.png".toList) (by decide)).1).trans rfl⟩

/-- An ASCII digit is unaffected by lower-casing and is neither an
underscore nor a newline. -/
theorem isDigitC_facts (c : Char) (h : isDigitC c = true) :
    myToLower c = c ∧ c ≠ '_' ∧ c ≠ '\n' := by
  have hb := of_decide_eq_true h
  refine ⟨?_, ?_, ?_⟩
  · unfold myToLower
    rw [if_neg]
    omega
  · intro hc
    subst hc
    exact absurd hb (by decide)
  · intro hc
    subst hc
    exact absurd hb (by decide)

theorem digitChar_isDigitC (d : Nat) (hd : d < 10) :
    isDigitC (Nat.digitChar d) = true := by
  interval_cases d <;> decide

theorem charVal_digitChar (d : Nat) (hd : d < 10) :
    charVal (Nat.digitChar d) = d := by
  interval_cases d <;> decide

theorem mem_natDigits_isDigit (n : Nat) :
    ∀ c ∈ natDigits n, isDigitC c = true := by
  intro c hc
  unfold natDigits at hc
  by_cases hn : n = 0
  · rw [if_pos hn, List.mem_singleton] at hc
    subst hc
    decide
  · rw [if_neg hn] at hc
    rw [List.mem_reverse, List.mem_map] at hc
    obtain ⟨d, hd, rfl⟩ := hc
    exact digitChar_isDigitC d (Nat.digits_lt_base (by norm_num) hd)

theorem natDigits_ne_nil (n : Nat) : natDigits n ≠ [] := by
  unfold natDigits
  by_cases hn : n = 0
  · rw [if_pos hn]
    exact (by decide)
  · rw [if_neg hn]
    intro h
    rw [List.reverse_eq_nil_iff, List.map_eq_nil_iff] at h
    exact (Nat.digits_ne_nil_iff_ne_zero.mpr hn) h

theorem parseDigits_natDigits (n : Nat) : parseDigits (natDigits n) = n := by
  unfold parseDigits natDigits
  by_cases hn : n = 0
  · rw [if_pos hn, hn]
    decide
  · rw [if_neg hn, List.map_reverse, List.reverse_reverse, List.map_map]
    have h1 : (Nat.digits 10 n).map (charVal ∘ Nat.digitChar) =
        (Nat.digits 10 n).map id :=
      List.map_congr_left (fun d hd =>
        charVal_digitChar d (Nat.digits_lt_base (by norm_num) hd))
    rw [h1, List.map_id, Nat.ofDigits_digits]

theorem tryHere_not_underscore (c : Char) (l : List Char)
    (h : myToLower c ≠ '_') : tryHere (c :: l) = none := by
  unfold tryHere
  have hs : stripCI (c :: l) ("_page".toList) = none := by
    show stripCI (c :: l) ('_' :: "page".toList) = none
    unfold stripCI
    rw [if_neg h]
  rw [hs]

theorem tryHere_not_page (c : Char) (l : List Char)
    (h : myToLower c ≠ 'p') : tryHere ('_' :: c :: l) = none := by
  unfold tryHere
  have hs : stripCI ('_' :: c :: l) ("_page".toList) = none := by
    show stripCI ('_' :: c :: l) ('_' :: 'p' :: "age".toList) = none
    unfold stripCI
    rw [if_pos (by decide)]
    unfold stripCI
    rw [if_neg h]
  rw [hs]

theorem findLast_cons_eq (c : Char) (l : List Char) :
    findLast (c :: l) =
      (match findLast l with
        | some n => some n
        | none => tryHere (c :: l)) := rfl

theorem findLast_cons_none (c : Char) (l : List Char)
    (h : tryHere (c :: l) = none) : findLast (c :: l) = findLast l := by
  rw [findLast_cons_eq]
  cases hf : findLast l with
  | none => exact h
  | some n => rfl

theorem findLast_append_some (b T : List Char) (v : Nat)
    (h : findLast T = some v) : findLast (b ++ T) = some v := by
  induction b with
  | nil => exact h
  | cons c bs ih =>
    show findLast (c :: (bs ++ T)) = some v
    rw [findLast_cons_eq, ih]

theorem findLast_digits_prepend (D X : List Char)
    (hD : ∀ c ∈ D, isDigitC c = true) :
    findLast (D ++ X) = findLast X := by
  induction D with
  | nil => rfl
  | cons d ds ih =>
    have hd := isDigitC_facts d (hD d (List.mem_cons_self _ _))
    have hds : ∀ c ∈ ds, isDigitC c = true :=
      fun c hc => hD c (List.mem_cons_of_mem _ hc)
    show findLast (d :: (ds ++ X)) = findLast X
    rw [findLast_cons_none d _ (tryHere_not_underscore d _ (by
      rw [hd.1]; exact hd.2.1)), ih hds]

theorem findLast_cons_fixed (c : Char) (l : List Char)
    (h : myToLower c ≠ '_') : findLast (c :: l) = findLast l :=
  findLast_cons_none c l (tryHere_not_underscore c l h)

theorem takeWhile_all_append (p : Char → Bool) (D : List Char)
    (hD : ∀ c ∈ D, p c = true) (y : Char) (X : List Char)
    (hy : p y = false) :
    (D ++ y :: X).takeWhile p = D ∧ (D ++ y :: X).dropWhile p = y :: X := by
  induction D with
  | nil => simp [List.takeWhile_cons, List.dropWhile_cons, hy]
  | cons d ds ih =>
    have hd := hD d (List.mem_cons_self _ _)
    have hds : ∀ c ∈ ds, p c = true := fun c hc => hD c (List.mem_cons_of_mem _ hc)
    obtain ⟨h1, h2⟩ := ih hds
    constructor
    · show (d :: (ds ++ y :: X)).takeWhile p = d :: ds
      rw [List.takeWhile_cons, hd, h1]
      rfl
    · show (d :: (ds ++ y :: X)).dropWhile p = y :: X
      rw [List.dropWhile_cons]
      simp only [hd, if_true, h2]

theorem map_myToLower_digits (I : List Char)
    (hI : ∀ c ∈ I, isDigitC c = true) : I.map myToLower = I := by
  have h1 : I.map myToLower = I.map id :=
    List.map_congr_left (fun c hc => (isDigitC_facts c (hI c hc)).1)
  rw [h1, List.map_id]

theorem extTailOk_img (I : List Char) (hI : ∀ c ∈ I, isDigitC c = true) :
    extTailOk ('i' :: 'm' :: 'g' :: (I ++ ".png".toList)) = true := by
  have hmap : ('i' :: 'm' :: 'g' :: (I ++ ".png".toList)).map myToLower =
      'i' :: 'm' :: 'g' :: (I ++ ".png".toList) := by
    rw [List.map_cons, List.map_cons, List.map_cons, List.map_append,
      map_myToLower_digits I hI,
      show myToLower 'i' = 'i' from by decide,
      show myToLower 'm' = 'm' from by decide,
      show myToLower 'g' = 'g' from by decide,
      show (".png".toList).map myToLower = ".png".toList from by decide]
  have hsfx : hasSuffix ('i' :: 'm' :: 'g' :: (I ++ ".png".toList))
      ('.' :: "png".toList) = true := by
    have hshape : 'i' :: 'm' :: 'g' :: (I ++ ".png".toList) =
        ('i' :: 'm' :: 'g' :: I) ++ ".png".toList := by simp
    rw [hshape]
    exact hasSuffix_append _ _
  unfold extTailOk
  rw [hmap]
  exact List.any_eq_true.mpr ⟨"png".toList, by decide, hsfx⟩

theorem stripCI_page (X : List Char) :
    stripCI ("_page".toList ++ X) ("_page".toList) = some X := by
  show stripCI ('_' :: 'p' :: 'a' :: 'g' :: 'e' :: X)
    ('_' :: 'p' :: 'a' :: 'g' :: 'e' :: []) = some X
  simp [stripCI, myToLower]

theorem tryHere_page (D I : List Char) (hD : ∀ c ∈ D, isDigitC c = true)
    (hDne : D ≠ []) (hI : ∀ c ∈ I, isDigitC c = true) :
    tryHere ("_page".toList ++
        (D ++ ('_' :: 'i' :: 'm' :: 'g' :: (I ++ ".png".toList)))) =
      some (parseDigits D) := by
  obtain ⟨h1, h2⟩ := takeWhile_all_append isDigitC D hD '_'
    ('i' :: 'm' :: 'g' :: (I ++ ".png".toList)) (by decide)
  obtain ⟨d, ds, rfl⟩ := List.exists_cons_of_ne_nil hDne
  unfold tryHere
  rw [stripCI_page]
  show (match ((d :: ds) ++ ('_' :: 'i' :: 'm' :: 'g' ::
      (I ++ ".png".toList))).takeWhile isDigitC,
      ((d :: ds) ++ ('_' :: 'i' :: 'm' :: 'g' ::
      (I ++ ".png".toList))).dropWhile isDigitC with
    | [], _ => none
    | _ :: _, '_' :: tl =>
      if extTailOk tl then
        some (parseDigits (((d :: ds) ++ ('_' :: 'i' :: 'm' :: 'g' ::
          (I ++ ".png".toList))).takeWhile isDigitC))
      else none
    | _ :: _, _ => none) = some (parseDigits (d :: ds))
  rw [h1, h2]
  show (if extTailOk ('i' :: 'm' :: 'g' :: (I ++ ".png".toList)) then
    some (parseDigits (d :: ds)) else none) = some (parseDigits (d :: ds))
  rw [if_pos (extTailOk_img I hI)]

theorem findLast_tail_none (D I : List Char)
    (hD : ∀ c ∈ D, isDigitC c = true) (hI : ∀ c ∈ I, isDigitC c = true) :
    findLast ('p' :: 'a' :: 'g' :: 'e' ::
      (D ++ ('_' :: 'i' :: 'm' :: 'g' :: (I ++ ".png".toList)))) = none := by
  rw [findLast_cons_fixed 'p' _ (by decide), findLast_cons_fixed 'a' _ (by decide),
    findLast_cons_fixed 'g' _ (by decide), findLast_cons_fixed 'e' _ (by decide),
    findLast_digits_prepend D _ hD,
    findLast_cons_none _ _ (tryHere_not_page 'i' _ (by decide)),
    findLast_cons_fixed 'i' _ (by decide), findLast_cons_fixed 'm' _ (by decide),
    findLast_cons_fixed 'g' _ (by decide),
    findLast_digits_prepend I _ hI]
  decide

/-- Claim C10: the filename `{pdfBaseName}_page{p}_img{i}.png` produced
by extraction matches the page-pattern regex of
`create_pdf_from_images`, and the page number parsed from it is exactly
`p`: the greedy prefix makes the capture land on the last
`_page<digits>_` occurrence, which is the one extraction appended, so
extraction output is valid, correctly numbered input for assembly. -/
theorem extraction_matches_pattern (base : List Char) (p i : Nat)
    (hp : 0 < p) (hi : 0 < i) (hnl : '\n' ∉ base) :
    pageMatch (imgFilename base p i) = some p := by
  have hD := mem_natDigits_isDigit p
  have hI := mem_natDigits_isDigit i
  have hDne := natDigits_ne_nil p
  have hnl2 : '\n' ∉ imgFilename base p i := by
    unfold imgFilename
    simp only [List.mem_append, not_or]
    refine ⟨⟨⟨⟨⟨hnl, by decide⟩,
      fun hc => ((isDigitC_facts _ (hD _ hc)).2.2) rfl⟩, by decide⟩,
      fun hc => ((isDigitC_facts _ (hI _ hc)).2.2) rfl⟩, by decide⟩
  unfold pageMatch
  rw [if_neg hnl2]
  have hshape : imgFilename base p i =
      base ++ ('_' :: 'p' :: 'a' :: 'g' :: 'e' ::
        (natDigits p ++ ('_' :: 'i' :: 'm' :: 'g' ::
          (natDigits i ++ ".png".toList)))) := by
    unfold imgFilename
    simp only [List.append_assoc]
    rfl
  rw [hshape]
  apply findLast_append_some
  rw [findLast_cons_eq,
    findLast_tail_none (natDigits p) (natDigits i) hD hI]
  show tryHere ("_page".toList ++ (natDigits p ++
    ('_' :: 'i' :: 'm' :: 'g' :: (natDigits i ++ ".png".toList)))) = some p
  rw [tryHere_page _ _ hD hDne hI, parseDigits_natDigits]

/-- Witness for C10 on the base name `doc`, page 3, image 1. -/
theorem extraction_matches_pattern_witness :
    (0 < 3 ∧ 0 < 1 ∧ '\n' ∉ "doc".toList) ∧
    pageMatch (imgFilename ("doc".toList) 3 1) = some 3 :=
  ⟨⟨by decide, by decide, by decide⟩,
    extraction_matches_pattern ("doc".toList) 3 1 (by decide) (by decide)
      (by decide)⟩
